import Mathlib

/-!
Shallow embedding of the search, scoring, pagination and configuration
validation logic of the agentic-tools-mcp-companion VS Code extension
(`src/services/memoryService.ts`, `src/services/taskService.ts`, and the
`ConfigUtils` class).

Strings are modelled as lists of characters; JavaScript string operations
(`toLowerCase`, `includes`, `startsWith`, `endsWith`, `split(/\s+/)`,
`Array.slice`) are given faithful list-level definitions. Numeric scores
are modelled over `ℚ` (JavaScript numbers behave exactly like rationals on
every value these claims touch).
-/

namespace Companion

/-- Strings as lists of characters. -/
abbrev Str := List Char

/-- Whitespace characters recognised by the regular expression `\s` used in
`query.split` (the common ASCII whitespace plus NBSP). -/
def isWs (c : Char) : Bool :=
  c = ' ' || c = '\t' || c = '\n' || c = '\x0d' || c = '\x0b' || c = '\x0c' || c = ' '

/-- JavaScript `toLowerCase` on the ASCII range: per-character lower-casing. -/
def lower (s : Str) : Str := s.map Char.toLower

/-- JavaScript `hay.includes(nee)`: `nee` occurs contiguously somewhere in `hay`. -/
def strIncludes : Str → Str → Bool
  | hay, nee =>
    nee.isPrefixOf hay ||
      (match hay with
       | [] => false
       | _ :: t => strIncludes t nee)

/-- State machine for `split(/\s+/)`: `some cur` means a token `cur`
(reversed) is being accumulated, `none` means we are inside a whitespace
run. A run of whitespace ends the current token; the end of the string
always emits the pending token, so leading or trailing whitespace yields an
empty token, exactly as in JavaScript. -/
def splitWsGo : Str → Option Str → List Str
  | [], none => [[]]
  | [], some cur => [cur.reverse]
  | c :: cs, none => if isWs c then splitWsGo cs none else splitWsGo cs (some [c])
  | c :: cs, some cur =>
    if isWs c then cur.reverse :: splitWsGo cs none else splitWsGo cs (some (c :: cur))

/-- JavaScript `s.split(/\s+/)`. -/
def splitWs (s : Str) : List Str := splitWsGo s (some [])

/-- A memory record (`Memory` in `src/models/memory.ts`): only the fields the
scorer reads. `category` is optional. -/
structure Memory where
  title : Str
  content : Str
  category : Option Str
deriving DecidableEq

/-- A task record: only the fields the scorer and search read. -/
structure Task where
  name : Str
  details : Str
  projectId : Str
deriving DecidableEq

/-- A project record, used for the project-name lookup in `searchTasks`. -/
structure Project where
  id : Str
  name : Str
deriving DecidableEq

/-- The `performance` section of the extension configuration. -/
structure PerfConfig where
  enableEarlyTermination : Bool
  lowScoreThreshold : ℚ
deriving DecidableEq

/-- Primary-text component of both scorers (`title`/`name` matching block):
exact match 1.0, starts-with 0.8, ends-with 0.6, contains 0.4, else 0. -/
def primaryScore (title query : Str) : ℚ :=
  if strIncludes title query then
    if title = query then 1
    else if query.isPrefixOf title then 4/5
    else if query.isSuffixOf title then 3/5
    else 2/5
  else 0

/-- The early-termination test `performanceConfig?.enableEarlyTermination &&
score < performanceConfig.lowScoreThreshold` (false when the config is
absent, as optional chaining yields `undefined`). -/
def earlyTerm : Option PerfConfig → ℚ → Bool
  | some pc, score => pc.enableEarlyTermination && decide (score < pc.lowScoreThreshold)
  | none, _ => false

/-- Secondary-text component (`content`/`details` block): only runs when the
running score is below 0.8 AND the whole query is a substring of the text;
it then adds `wordMatches / queryWords.length * 0.3` where `wordMatches`
counts the whitespace-delimited query tokens contained in the text. -/
def secondaryStage (text query : Str) (score : ℚ) : ℚ :=
  if score < 4/5 ∧ strIncludes text query = true then
    let queryWords := splitWs query
    let wordMatches := (queryWords.filter (fun w => strIncludes text w)).length
    if 0 < wordMatches then
      score + ((wordMatches : ℚ) / (queryWords.length : ℚ)) * (3/10)
    else score
  else score

/-- The test `memory.category && memory.category.toLowerCase().includes(query)`
of the category bonus; an empty category string is falsy in JavaScript. -/
def categoryHit (category : Option Str) (query : Str) : Bool :=
  match category with
  | some c => !c.isEmpty && strIncludes (lower c) query
  | none => false

/-- Category-bonus component of the memory scorer: adds 0.1 when the running
score is below 0.9 and the lower-cased category contains the query. -/
def categoryStage (category : Option Str) (query : Str) (score : ℚ) : ℚ :=
  if score < 9/10 ∧ categoryHit category query = true then score + 1/10 else score

/-- `MemoryService.calculateRelevanceScore` (memoryService.ts lines 337-391). -/
def calculateRelevanceScore (memory : Memory) (query : Str)
    (performanceConfig : Option PerfConfig) : ℚ :=
  let title := lower memory.title
  let content := lower memory.content
  let score := primaryScore title query
  if earlyTerm performanceConfig score then score
  else min (categoryStage memory.category query (secondaryStage content query score)) 1

/-- `TaskService.calculateTaskRelevanceScore` (taskService.ts lines 503-552):
identical to the memory scorer except that there is no category stage. -/
def calculateTaskRelevanceScore (task : Task) (query : Str)
    (performanceConfig : Option PerfConfig) : ℚ :=
  let name := lower task.name
  let details := lower task.details
  let score := primaryScore name query
  if earlyTerm performanceConfig score then score
  else min (secondaryStage details query score) 1

/-- A memory search result (`MemorySearchResult`): record plus score. -/
structure MemorySearchResult where
  memory : Memory
  score : ℚ
deriving DecidableEq

/-- A task search result (`TaskSearchResult`): record, score, project name. -/
structure TaskSearchResult where
  task : Task
  score : ℚ
  projectName : Str
deriving DecidableEq

/-- The error message thrown on cancellation. -/
def cancelMsg : String := "Search operation was cancelled"

deriving instance DecidableEq for Except

/-- Stable descending insertion: `x` is placed after every element whose
score is at least `scoreOf x`, so elements inserted earlier keep their
relative order on ties. Folding this over the scan output realises the
stable `results.sort((a, b) => b.score - a.score)` of ECMAScript. -/
def insertDesc {R : Type} (scoreOf : R → ℚ) (x : R) : List R → List R
  | [] => [x]
  | y :: ys => if scoreOf x ≤ scoreOf y then y :: insertDesc scoreOf x ys else x :: y :: ys

/-- Stable sort by descending score. -/
def sortByScoreDesc {R : Type} (scoreOf : R → ℚ) (l : List R) : List R :=
  l.foldl (fun acc x => insertDesc scoreOf x acc) []

/-- The scan loop shared by `searchMemories` and `searchTasks`: at the top of
each iteration the cancellation signal is sampled (check number `k`); then
the record is scored, skipped when early termination applies or the score
is below the threshold, and otherwise pushed; after a push the loop breaks
once `maxResults` results are collected. -/
def searchScan {α R : Type} (f : α → ℚ) (mk : α → ℚ → R) (perf : PerfConfig)
    (threshold : ℚ) (maxResults : ℕ) (signal : ℕ → Bool) :
    List α → ℕ → List R → Except String (List R)
  | [], _, acc => .ok acc.reverse
  | a :: rest, k, acc =>
    if signal k then .error cancelMsg
    else
      let score := f a
      if perf.enableEarlyTermination = true ∧ score < perf.lowScoreThreshold then
        searchScan f mk perf threshold maxResults signal rest (k + 1) acc
      else if threshold ≤ score then
        if maxResults ≤ (mk a score :: acc).length then .ok (mk a score :: acc).reverse
        else searchScan f mk perf threshold maxResults signal rest (k + 1) (mk a score :: acc)
      else searchScan f mk perf threshold maxResults signal rest (k + 1) acc

/-- Shared tail of both search functions: pre-loop cancellation check
(check number 0), the scan (checks 1, 2, ...), then the stable descending
sort and the final `slice(0, maxResults)`. -/
def searchRun {α R : Type} (scoreOf : R → ℚ) (f : α → ℚ) (mk : α → ℚ → R)
    (perf : PerfConfig) (threshold : ℚ) (maxResults : ℕ) (signal : ℕ → Bool)
    (items : List α) : Except String (List R) :=
  if signal 0 then .error cancelMsg
  else (searchScan f mk perf threshold maxResults signal items 1 []).map
    (fun l => (sortByScoreDesc scoreOf l).take maxResults)

/-- `MemoryService.searchMemories` (memoryService.ts lines 270-318), with the
corpus, the resolved threshold and max-results, and the cancellation signal
as explicit parameters. The query is lower-cased once up front. -/
def searchMemories (signal : ℕ → Bool) (memories : List Memory) (query : Str)
    (perf : PerfConfig) (threshold : ℚ) (maxResults : ℕ) :
    Except String (List MemorySearchResult) :=
  searchRun MemorySearchResult.score
    (fun m => calculateRelevanceScore m (lower query) (some perf))
    (fun m s => ⟨m, s⟩) perf threshold maxResults signal memories

/-- `projectMap.get(task.projectId) || 'Unknown Project'`: the `Map` built
from the project list keeps the last entry for a duplicated id, and an
empty project name is falsy and also falls back. -/
def projectNameFor (projects : List Project) (pid : Str) : Str :=
  match (projects.filter (fun p => p.id = pid)).getLast? with
  | some p => if p.name = [] then "Unknown Project".data else p.name
  | none => "Unknown Project".data

/-- `TaskService.searchTasks` (taskService.ts lines 433-484). -/
def searchTasks (signal : ℕ → Bool) (projects : List Project) (tasks : List Task)
    (query : Str) (perf : PerfConfig) (threshold : ℚ) (maxResults : ℕ) :
    Except String (List TaskSearchResult) :=
  searchRun TaskSearchResult.score
    (fun t => calculateTaskRelevanceScore t (lower query) (some perf))
    (fun t s => ⟨t, s, projectNameFor projects t.projectId⟩)
    perf threshold maxResults signal tasks

/-- Pagination metadata (`PaginationInfo`). -/
structure PaginationInfo where
  currentPage : ℤ
  totalPages : ℕ
  pageSize : ℕ
  totalItems : ℕ
  hasNextPage : Bool
  hasPreviousPage : Bool
deriving DecidableEq

/-- A page of results (`PaginatedSearchResult<T>`). -/
structure PaginatedSearchResult (α : Type) where
  items : List α
  pagination : PaginationInfo
deriving DecidableEq

/-- `Math.ceil(totalItems / pageSize)` for natural inputs and positive
`pageSize`. -/
def ceilDivNat (a b : ℕ) : ℕ := (a + b - 1) / b

/-- `ConfigUtils.createPaginationInfo`: `totalPages = ceil(totalItems /
pageSize)` and `currentPage = Math.max(1, Math.min(currentPage,
totalPages))`. -/
def createPaginationInfo (totalItems : ℕ) (currentPage : ℤ) (pageSize : ℕ) :
    PaginationInfo :=
  let totalPages := ceilDivNat totalItems pageSize
  ⟨max 1 (min currentPage (totalPages : ℤ)), totalPages, pageSize, totalItems,
    decide (currentPage < (totalPages : ℤ)), decide (1 < currentPage)⟩

/-- ECMAScript `Array.prototype.slice(s, e)`: a negative offset counts from
the end of the array (clamped at 0), a non-negative one is clamped at the
length. -/
def jsSlice {α : Type} (l : List α) (s e : ℤ) : List α :=
  let len : ℤ := l.length
  let relS : ℕ := if s < 0 then (len + s).toNat else min s.toNat l.length
  let relE : ℕ := if e < 0 then (len + e).toNat else min e.toNat l.length
  (l.drop relS).take (relE - relS)

/-- `ConfigUtils.paginateResults`: slice `[(page-1)*pageSize, page*pageSize)`
of the items, using the requested page verbatim, plus pagination metadata. -/
def paginateResults {α : Type} (items : List α) (page : ℤ) (pageSize : ℕ) :
    PaginatedSearchResult α :=
  let startIndex : ℤ := (page - 1) * (pageSize : ℤ)
  let endIndex : ℤ := startIndex + (pageSize : ℤ)
  ⟨jsSlice items startIndex endIndex, createPaginationInfo items.length page pageSize⟩

/-- The `search` section of `Partial<ExtensionConfig>`, restricted to the
fields `validateConfig` reads. -/
structure PartialSearchConfig where
  pageSize : Option ℚ
  maxResults : Option ℚ
  threshold : Option ℚ
deriving DecidableEq

/-- The `performance` section of `Partial<ExtensionConfig>`. -/
structure PartialPerformanceConfig where
  enableEarlyTermination : Option Bool
  lowScoreThreshold : Option ℚ
deriving DecidableEq

/-- `Partial<ExtensionConfig>`, restricted to the sections `validateConfig`
reads. -/
structure PartialExtensionConfig where
  search : Option PartialSearchConfig
  performance : Option PartialPerformanceConfig
deriving DecidableEq

/-- One `if (field !== undefined) if (field < lo || field > hi) errors.push`
block of `ConfigUtils.validateConfig`. -/
def checkRange (v : Option ℚ) (lo hi : ℚ) (msg : String) : List String :=
  match v with
  | some x => if x < lo ∨ hi < x then [msg] else []
  | none => []

/-- `ConfigUtils.validateConfig`: the four range checks, in source order. -/
def validateConfig (config : PartialExtensionConfig) : List String :=
  checkRange (config.search.bind PartialSearchConfig.pageSize) 5 100
      "Page size must be between 5 and 100" ++
    checkRange (config.search.bind PartialSearchConfig.maxResults) 10 1000
      "Max results must be between 10 and 1000" ++
    checkRange (config.search.bind PartialSearchConfig.threshold) (1/10) 1
      "Search threshold must be between 0.1 and 1.0" ++
    checkRange (config.performance.bind PartialPerformanceConfig.lowScoreThreshold)
      (1/100) (1/2) "Low score threshold must be between 0.01 and 0.5"

section SortLemmas

variable {R : Type} (scoreOf : R → ℚ)

theorem mem_insertDesc {x a : R} {l : List R} :
    a ∈ insertDesc scoreOf x l ↔ a = x ∨ a ∈ l := by
  induction l with
  | nil => simp [insertDesc]
  | cons y ys ih =>
    by_cases h : scoreOf x ≤ scoreOf y
    · simp only [insertDesc, if_pos h, List.mem_cons, ih]
      tauto
    · simp only [insertDesc, if_neg h, List.mem_cons]

theorem pairwise_insertDesc {x : R} {l : List R}
    (h : l.Pairwise (fun a b => scoreOf b ≤ scoreOf a)) :
    (insertDesc scoreOf x l).Pairwise (fun a b => scoreOf b ≤ scoreOf a) := by
  induction l with
  | nil => simp [insertDesc]
  | cons y ys ih =>
    rcases List.pairwise_cons.mp h with ⟨hy, hys⟩
    by_cases hxy : scoreOf x ≤ scoreOf y
    · rw [insertDesc, if_pos hxy]
      refine List.pairwise_cons.mpr ⟨?_, ih hys⟩
      intro a ha
      rcases (mem_insertDesc scoreOf).mp ha with rfl | ha
      · exact hxy
      · exact hy a ha
    · rw [insertDesc, if_neg hxy]
      refine List.pairwise_cons.mpr ⟨?_, h⟩
      intro a ha
      rcases List.mem_cons.mp ha with rfl | ha
      · exact le_of_lt (lt_of_not_le hxy)
      · exact le_trans (hy a ha) (le_of_lt (lt_of_not_le hxy))

theorem pairwise_foldl_insertDesc (l : List R) :
    ∀ acc : List R, acc.Pairwise (fun a b => scoreOf b ≤ scoreOf a) →
      (l.foldl (fun acc x => insertDesc scoreOf x acc) acc).Pairwise
        (fun a b => scoreOf b ≤ scoreOf a) := by
  induction l with
  | nil => intro acc h; exact h
  | cons x xs ih =>
    intro acc h
    exact ih (insertDesc scoreOf x acc) (pairwise_insertDesc scoreOf h)

theorem pairwise_sortByScoreDesc (l : List R) :
    (sortByScoreDesc scoreOf l).Pairwise (fun a b => scoreOf b ≤ scoreOf a) :=
  pairwise_foldl_insertDesc scoreOf l [] List.Pairwise.nil

theorem filter_insertDesc (s : ℚ) {x : R} {l : List R}
    (h : l.Pairwise (fun a b => scoreOf b ≤ scoreOf a)) :
    (insertDesc scoreOf x l).filter (fun r => decide (scoreOf r = s)) =
      if scoreOf x = s then
        l.filter (fun r => decide (scoreOf r = s)) ++ [x]
      else l.filter (fun r => decide (scoreOf r = s)) := by
  induction l with
  | nil =>
    by_cases hx : scoreOf x = s <;> simp [insertDesc, List.filter, hx]
  | cons y ys ih =>
    rcases List.pairwise_cons.mp h with ⟨hy, hys⟩
    by_cases hxy : scoreOf x ≤ scoreOf y
    · rw [insertDesc, if_pos hxy]
      by_cases hx : scoreOf x = s
      · by_cases hyv : scoreOf y = s <;>
          simp [List.filter_cons, hyv, hx, ih hys]
      · by_cases hyv : scoreOf y = s <;>
          simp [List.filter_cons, hyv, hx, ih hys]
    · rw [insertDesc, if_neg hxy]
      have hxgt := lt_of_not_le hxy
      by_cases hx : scoreOf x = s
      · have hynot : ¬scoreOf y = s := by
          intro hyv; rw [hyv, ← hx] at hxgt; exact lt_irrefl _ hxgt
        have hysnil : ys.filter (fun r => decide (scoreOf r = s)) = [] := by
          rw [List.filter_eq_nil_iff]
          intro a ha
          have : scoreOf a ≤ scoreOf y := hy a ha
          simp only [decide_eq_true_eq]
          intro hav
          rw [hav] at this
          rw [← hx] at this
          exact absurd (lt_of_le_of_lt this hxgt) (lt_irrefl _)
        simp [List.filter_cons, hx, hynot, hysnil]
      · simp [List.filter_cons, hx]

theorem filter_foldl_insertDesc (s : ℚ) (l : List R) :
    ∀ acc : List R, acc.Pairwise (fun a b => scoreOf b ≤ scoreOf a) →
      (l.foldl (fun acc x => insertDesc scoreOf x acc) acc).filter
          (fun r => decide (scoreOf r = s)) =
        acc.filter (fun r => decide (scoreOf r = s)) ++
          l.filter (fun r => decide (scoreOf r = s)) := by
  induction l with
  | nil => intro acc _; simp
  | cons x xs ih =>
    intro acc h
    rw [List.foldl_cons, ih (insertDesc scoreOf x acc) (pairwise_insertDesc scoreOf h),
      filter_insertDesc scoreOf s h, List.filter_cons]
    by_cases hx : scoreOf x = s <;> simp [hx]

theorem filter_sortByScoreDesc (s : ℚ) (l : List R) :
    (sortByScoreDesc scoreOf l).filter (fun r => decide (scoreOf r = s)) =
      l.filter (fun r => decide (scoreOf r = s)) := by
  have := filter_foldl_insertDesc scoreOf s l [] List.Pairwise.nil
  simpa [sortByScoreDesc] using this

end SortLemmas

section ScanLemmas

variable {α R : Type} (f : α → ℚ) (mk : α → ℚ → R) (perf : PerfConfig)
variable (threshold : ℚ) (maxResults : ℕ) (signal : ℕ → Bool)

theorem searchScan_error {ms : List α} {k : ℕ} {acc : List R} {e : String}
    (h : searchScan f mk perf threshold maxResults signal ms k acc = .error e) :
    e = cancelMsg := by
  induction ms generalizing k acc with
  | nil => simp [searchScan] at h
  | cons a rest ih =>
    rw [searchScan] at h
    by_cases hs : signal k
    · rw [if_pos hs] at h
      injection h with h
      exact h.symm
    · rw [if_neg hs] at h
      dsimp only at h
      split at h
      · exact ih h
      · split at h
        · split at h
          · injection h
          · exact ih h
        · exact ih h

theorem searchScan_ok_decomp {ms : List α} {k : ℕ} {acc l : List R}
    (h : searchScan f mk perf threshold maxResults signal ms k acc = .ok l) :
    ∃ t, l = acc.reverse ++ t ∧ List.Sublist t (ms.map (fun a => mk a (f a))) := by
  induction ms generalizing k acc with
  | nil =>
    rw [searchScan] at h
    injection h with h
    exact ⟨[], by simp [h.symm], List.nil_sublist _⟩
  | cons a rest ih =>
    rw [searchScan] at h
    by_cases hs : signal k
    · rw [if_pos hs] at h; injection h
    · rw [if_neg hs] at h
      dsimp only at h
      split at h
      · rcases ih h with ⟨t, rfl, ht⟩
        exact ⟨t, rfl, ht.cons _⟩
      · split at h
        · split at h
          · injection h with h
            refine ⟨[mk a (f a)], by simp [h.symm], ?_⟩
            exact List.Sublist.cons₂ _ (List.nil_sublist _)
          · rcases ih h with ⟨t, rfl, ht⟩
            exact ⟨mk a (f a) :: t, by simp, ht.cons₂ _⟩
        · rcases ih h with ⟨t, rfl, ht⟩
          exact ⟨t, rfl, ht.cons _⟩

theorem searchScan_ok_unsignalled {ms : List α} {k : ℕ} {acc l : List R}
    (h : searchScan f mk perf threshold maxResults signal ms k acc = .ok l) :
    searchScan f mk perf threshold maxResults (fun _ => false) ms k acc = .ok l := by
  induction ms generalizing k acc with
  | nil => exact h
  | cons a rest ih =>
    rw [searchScan] at h
    by_cases hs : signal k
    · rw [if_pos hs] at h; injection h
    · rw [if_neg hs] at h
      dsimp only at h
      rw [searchScan, if_neg (by simp)]
      dsimp only
      split at h
      · rw [if_pos (by assumption)]
        exact ih h
      · rw [if_neg (by assumption)]
        split at h
        · rw [if_pos (by assumption)]
          split at h
          · rwa [if_pos (by assumption)]
          · rw [if_neg (by assumption)]
            exact ih h
        · rw [if_neg (by assumption)]
          exact ih h

theorem searchRun_cancellation (scoreOf : R → ℚ) (items : List α) :
    (signal 0 = true →
        searchRun scoreOf f mk perf threshold maxResults signal items = .error cancelMsg) ∧
      (searchRun scoreOf f mk perf threshold maxResults signal items = .error cancelMsg ∨
        searchRun scoreOf f mk perf threshold maxResults signal items =
          searchRun scoreOf f mk perf threshold maxResults (fun _ => false) items) := by
  constructor
  · intro h0
    rw [searchRun, if_pos h0]
  · by_cases h0 : signal 0 = true
    · exact Or.inl (by rw [searchRun, if_pos h0])
    · rw [searchRun, if_neg h0]
      cases hscan : searchScan f mk perf threshold maxResults signal items 1 [] with
      | error e =>
        left
        rw [searchScan_error f mk perf threshold maxResults signal hscan]
        rfl
      | ok l =>
        right
        rw [searchRun, if_neg (by simp),
          searchScan_ok_unsignalled f mk perf threshold maxResults signal hscan]

theorem searchRun_sorted (scoreOf : R → ℚ) (items : List α) (out : List R)
    (h : searchRun scoreOf f mk perf threshold maxResults signal items = .ok out) :
    out.Pairwise (fun a b => scoreOf b ≤ scoreOf a) ∧
      ∀ s : ℚ, List.Sublist (out.filter (fun r => decide (scoreOf r = s)))
        ((items.map (fun a => mk a (f a))).filter (fun r => decide (scoreOf r = s))) := by
  rw [searchRun] at h
  by_cases h0 : signal 0 = true
  · rw [if_pos h0] at h; injection h
  · rw [if_neg h0] at h
    cases hscan : searchScan f mk perf threshold maxResults signal items 1 [] with
    | error e => rw [hscan] at h; injection h
    | ok l =>
      rw [hscan] at h
      injection h with h
      subst h
      rcases searchScan_ok_decomp f mk perf threshold maxResults signal hscan with
        ⟨t, hl, ht⟩
      have hlt : l = t := by simpa using hl
      subst hlt
      constructor
      · exact List.Pairwise.sublist (List.take_sublist _ _)
          (pairwise_sortByScoreDesc scoreOf l)
      · intro s
        have h1 : List.Sublist (((sortByScoreDesc scoreOf l).take maxResults).filter
            (fun r => decide (scoreOf r = s)))
            ((sortByScoreDesc scoreOf l).filter (fun r => decide (scoreOf r = s))) :=
          List.Sublist.filter _ (List.take_sublist _ _)
        rw [filter_sortByScoreDesc scoreOf s l] at h1
        exact h1.trans (List.Sublist.filter _ ht)

end ScanLemmas

section PaginationLemmas

variable {α : Type}

theorem jsSlice_nat (l : List α) (a b : ℕ) :
    jsSlice l (a : ℤ) (b : ℤ) = (l.drop a).take (b - a) := by
  rw [jsSlice]
  have ha : ¬((a : ℤ) < 0) := by omega
  have hb : ¬((b : ℤ) < 0) := by omega
  rw [if_neg ha, if_neg hb]
  simp only [Int.toNat_ofNat]
  by_cases hal : a ≤ l.length
  · rw [min_eq_left hal]
    by_cases hbl : b ≤ l.length
    · rw [min_eq_left hbl]
    · rw [min_eq_right (le_of_not_le hbl)]
      have hlen : (l.drop a).length = l.length - a := List.length_drop a l
      rw [List.take_of_length_le (by omega), List.take_of_length_le (by omega)]
  · rw [min_eq_right (le_of_not_le hal)]
    rw [List.drop_length]
    have hd : l.drop a = [] := List.drop_eq_nil_of_le (by omega)
    rw [hd]
    simp

theorem ceilDivNat_zero (b : ℕ) : ceilDivNat 0 b = 0 := by
  rw [ceilDivNat]
  rcases Nat.eq_zero_or_pos b with hb | hb
  · subst hb; rfl
  · exact Nat.div_eq_of_lt (by omega)

theorem le_ceilDivNat_mul (n P : ℕ) (hP : 0 < P) : n ≤ ceilDivNat n P * P := by
  rw [ceilDivNat]
  have h1 := Nat.div_add_mod (n + P - 1) P
  have h2 : (n + P - 1) % P < P := Nat.mod_lt _ hP
  have hcast : (n : ℤ) ≤ (((n + P - 1) / P : ℕ) : ℤ) * (P : ℤ) := by
    have e1 : (P : ℤ) * (((n + P - 1) / P : ℕ) : ℤ) + (((n + P - 1) % P : ℕ) : ℤ)
        = ((n + P - 1 : ℕ) : ℤ) := by exact_mod_cast h1
    have e2 : (((n + P - 1) % P : ℕ) : ℤ) < (P : ℤ) := by exact_mod_cast h2
    have e3 : ((n + P - 1 : ℕ) : ℤ) = (n : ℤ) + (P : ℤ) - 1 := by
      have hle : 1 ≤ n + P := by omega
      push_cast [hle]
      ring
    have e4 : (((n + P - 1) / P : ℕ) : ℤ) * (P : ℤ)
        = (P : ℤ) * (((n + P - 1) / P : ℕ) : ℤ) := mul_comm _ _
    linarith [e1, e2, e3, e4]
  exact_mod_cast hcast

theorem ceilDivNat_succ_step (n P : ℕ) (hn : 0 < n) (hP : 0 < P) :
    ceilDivNat n P = ceilDivNat (n - P) P + 1 := by
  rcases le_or_lt P n with h | h
  · rw [ceilDivNat, ceilDivNat]
    have hsplit : n + P - 1 = (n - P + P - 1) + P := by omega
    rw [hsplit, Nat.add_div_right _ hP]
  · have h1 : n - P = 0 := by omega
    rw [h1, ceilDivNat_zero, ceilDivNat]
    exact Nat.div_eq_of_lt_le (by omega) (by omega)

theorem pages_flatten (P : ℕ) (hP : 0 < P) :
    ∀ l : List α,
      ((List.range (ceilDivNat l.length P)).map (fun k => (l.drop (k * P)).take P)).flatten
        = l := by
  have main : ∀ n (l : List α), l.length = n →
      ((List.range (ceilDivNat l.length P)).map (fun k => (l.drop (k * P)).take P)).flatten
        = l := by
    intro n
    induction n using Nat.strong_induction_on with
    | _ n ih =>
      intro l hlen
      rcases Nat.eq_zero_or_pos n with hz | hpos
      · subst hz
        have : l = [] := List.eq_nil_of_length_eq_zero hlen
        subst this
        simp [ceilDivNat_zero]
      · have hstep : ceilDivNat l.length P = ceilDivNat (l.length - P) P + 1 := by
          rw [hlen]
          exact ceilDivNat_succ_step n P hpos hP
        rw [hstep, List.range_succ_eq_map, List.map_cons, List.flatten_cons]
        have hdroplen : (l.drop P).length = l.length - P := List.length_drop P l
        have hrec := ih (n - P) (by omega) (l.drop P) (by omega)
        rw [hdroplen] at hrec
        have hmapeq :
            (List.map Nat.succ (List.range (ceilDivNat (l.length - P) P))).map
                (fun k => (l.drop (k * P)).take P) =
              (List.range (ceilDivNat (l.length - P) P)).map
                (fun k => ((l.drop P).drop (k * P)).take P) := by
          rw [List.map_map]
          refine List.map_congr_left ?_
          intro k _
          show (l.drop (Nat.succ k * P)).take P = ((l.drop P).drop (k * P)).take P
          rw [List.drop_drop, Nat.succ_mul, Nat.add_comm]
        rw [hmapeq, hrec, Nat.zero_mul, List.drop_zero]
        exact List.take_append_drop P l
  intro l
  exact main l.length l rfl

theorem paginate_items_nat (l : List α) (k P : ℕ) :
    (paginateResults l ((k : ℤ) + 1) P).items = (l.drop (k * P)).take P := by
  rw [paginateResults]
  dsimp only
  have h1 : ((k : ℤ) + 1 - 1) * (P : ℤ) = ((k * P : ℕ) : ℤ) := by push_cast; ring
  rw [h1]
  have h2 : ((k * P : ℕ) : ℤ) + (P : ℤ) = ((k * P + P : ℕ) : ℤ) := by push_cast; ring
  rw [h2]
  rw [jsSlice_nat]
  congr 1
  omega

end PaginationLemmas

theorem checkRange_eq_nil (v : Option ℚ) (lo hi : ℚ) (msg : String) :
    checkRange v lo hi msg = [] ↔ ∀ x, v = some x → lo ≤ x ∧ x ≤ hi := by
  cases v with
  | none => simp [checkRange]
  | some x =>
    rw [checkRange]
    by_cases h : x < lo ∨ hi < x
    · rw [if_pos h]
      simp only [List.cons_ne_nil, false_iff]
      intro hall
      rcases hall x rfl with ⟨h1, h2⟩
      rcases h with h | h
      · exact absurd h1 (not_le_of_lt h)
      · exact absurd h2 (not_le_of_lt h)
    · rw [if_neg h]
      push_neg at h
      simp only [true_iff]
      intro y hy
      injection hy with hy
      subst hy
      exact h

theorem primaryScore_nonneg (t q : Str) : 0 ≤ primaryScore t q := by
  rw [primaryScore]
  split_ifs <;> norm_num

theorem primaryScore_le_one (t q : Str) : primaryScore t q ≤ 1 := by
  rw [primaryScore]
  split_ifs <;> norm_num

theorem le_secondaryStage (text q : Str) (s : ℚ) : s ≤ secondaryStage text q s := by
  rw [secondaryStage]
  dsimp only
  split_ifs with h1 h2
  · have hx : 0 ≤ ((((splitWs q).filter (fun w => strIncludes text w)).length : ℚ) /
        (((splitWs q).length : ℚ))) * (3/10) := by positivity
    linarith
  · exact le_refl s
  · exact le_refl s

theorem le_categoryStage (cat : Option Str) (q : Str) (s : ℚ) :
    s ≤ categoryStage cat q s := by
  rw [categoryStage]
  split_ifs with h
  · linarith
  · exact le_refl s

theorem secondaryStage_formula (text q : Str) (s : ℚ) (h1 : s < 4/5)
    (h2 : strIncludes text q = true) :
    secondaryStage text q s =
      s + (((splitWs q).filter (fun w => strIncludes text w)).length : ℚ) /
        ((splitWs q).length : ℚ) * (3/10) := by
  rw [secondaryStage, if_pos ⟨h1, h2⟩]
  dsimp only
  by_cases h0 : 0 < ((splitWs q).filter (fun w => strIncludes text w)).length
  · rw [if_pos h0]
  · rw [if_neg h0]
    have hz : ((splitWs q).filter (fun w => strIncludes text w)).length = 0 := by omega
    rw [hz]
    norm_num

/-- Claim C1 (corrected), counterexample to the original claim: for the
record with secondary text "configure pipeline and tests" and the query
"pipeline tests" (no early termination, running score 0 after the primary
component), every query token occurs in the secondary text, so the claimed
contribution is `(2/2) * 0.3 = 0.3`; but the scorer returns 0, because the
secondary-text component additionally requires the whole query to occur as
a substring of the secondary text and "pipeline tests" does not. -/
theorem claim_C1_counterexample :
    calculateRelevanceScore ⟨"x".data, "configure pipeline and tests".data, none⟩
        "pipeline tests".data none = 0 ∧
      primaryScore (lower "x".data) "pipeline tests".data = 0 ∧
      strIncludes (lower "configure pipeline and tests".data)
        "pipeline tests".data = false ∧
      ((((splitWs "pipeline tests".data).filter
            (fun w => strIncludes (lower "configure pipeline and tests".data) w)).length : ℚ) /
          ((splitWs "pipeline tests".data).length : ℚ)) * (3/10) = 3/10 ∧
      ¬((0 : ℚ) = 0 + 3/10) := by
  with_unfolding_all decide

/-- Claim C1 (corrected, amended): whenever early termination has not
returned, the running score after the primary component is below 0.8, AND
additionally the whole lower-cased query occurs as a substring of the
lower-cased secondary text, the scorer adds `matchRatio * 0.3` to the
running score, where `matchRatio` counts the whitespace-delimited query
tokens contained in the secondary text over the total number of query
tokens (the result then passes through the category stage and the final
cap, unchanged from the original claim). -/
theorem claim_C1_theorem (m : Memory) (q : Str) (pc : Option PerfConfig)
    (het : earlyTerm pc (primaryScore (lower m.title) q) = false)
    (hlt : primaryScore (lower m.title) q < 4/5)
    (hinc : strIncludes (lower m.content) q = true) :
    calculateRelevanceScore m q pc =
      min (categoryStage m.category q
        (primaryScore (lower m.title) q +
          (((splitWs q).filter (fun w => strIncludes (lower m.content) w)).length : ℚ) /
            ((splitWs q).length : ℚ) * (3/10))) 1 := by
  rw [calculateRelevanceScore]
  rw [if_neg (by rw [het]; exact Bool.false_ne_true)]
  rw [secondaryStage_formula _ _ _ hlt hinc]

/-- Witness for C1 (amended): query "pipeline and" IS a substring of the
secondary text "configure pipeline and tests"; primary score 0, both query
tokens matched, so the scorer returns `0 + (2/2) * 0.3 = 0.3`. -/
theorem claim_C1_witness :
    calculateRelevanceScore ⟨"x".data, "configure pipeline and tests".data, none⟩
      "pipeline and".data none = 3/10 := by
  have h := claim_C1_theorem ⟨"x".data, "configure pipeline and tests".data, none⟩
    "pipeline and".data none (by decide) (by with_unfolding_all decide) (by decide)
  rw [h]
  with_unfolding_all decide

/-- Claim C2: on the record (primary "Design mockups", secondary "create
wireframes for homepage", category "design") with query "design" and early
termination enabled at threshold 0.1, the scorer returns exactly 0.9: the
primary component contributes 0.8 (starts-with, not exact), the secondary
stage leaves 0.8 unchanged (running score not below 0.8), and the category
stage adds 0.1 (running score 0.8 below 0.9). -/
theorem claim_C2_theorem :
    calculateRelevanceScore
        ⟨"Design mockups".data, "create wireframes for homepage".data, some "design".data⟩
        "design".data (some ⟨true, 1/10⟩) = 9/10 ∧
      primaryScore (lower "Design mockups".data) "design".data = 4/5 ∧
      ¬(lower "Design mockups".data = "design".data) ∧
      ("design".data).isPrefixOf (lower "Design mockups".data) = true ∧
      secondaryStage (lower "create wireframes for homepage".data) "design".data (4/5)
        = 4/5 ∧
      categoryStage (some "design".data) "design".data (4/5) = 9/10 := by
  with_unfolding_all decide

/-- Claim C3: with early termination enabled, a running score after the
primary component strictly below `lowScoreThreshold` makes both scorers
return that running score immediately (the secondary and category stages
are not applied); in particular the "Setup CI" record scores 0 on query
"pipeline" even though its secondary text contains "pipeline". -/
theorem claim_C3_theorem :
    (∀ (m : Memory) (q : Str) (pc : PerfConfig), pc.enableEarlyTermination = true →
      primaryScore (lower m.title) q < pc.lowScoreThreshold →
      calculateRelevanceScore m q (some pc) = primaryScore (lower m.title) q) ∧
    (∀ (t : Task) (q : Str) (pc : PerfConfig), pc.enableEarlyTermination = true →
      primaryScore (lower t.name) q < pc.lowScoreThreshold →
      calculateTaskRelevanceScore t q (some pc) = primaryScore (lower t.name) q) ∧
    calculateRelevanceScore ⟨"Setup CI".data, "configure pipeline and tests".data, none⟩
      "pipeline".data (some ⟨true, 1/10⟩) = 0 ∧
    strIncludes (lower "configure pipeline and tests".data) "pipeline".data = true := by
  refine ⟨?_, ?_, ?_, ?_⟩
  · intro m q pc he hlt
    rw [calculateRelevanceScore]
    rw [if_pos (by simp [earlyTerm, he, hlt])]
  · intro t q pc he hlt
    rw [calculateTaskRelevanceScore]
    rw [if_pos (by simp [earlyTerm, he, hlt])]
  · with_unfolding_all decide
  · decide

/-- Witness for C3: the early-termination hypotheses hold on the Scenario B
record, and the theorem instantiates to a concrete early return of 0. -/
theorem claim_C3_witness :
    calculateRelevanceScore ⟨"Setup CI".data, "configure pipeline and tests".data, none⟩
        "pipeline".data (some ⟨true, 1/10⟩) =
      primaryScore (lower "Setup CI".data) "pipeline".data := by
  exact claim_C3_theorem.1 ⟨"Setup CI".data, "configure pipeline and tests".data, none⟩
    "pipeline".data ⟨true, 1/10⟩ rfl (by with_unfolding_all decide)

/-- Claim C6: both scorers always return a value in the closed interval
[0, 1], including on the early-termination path (which skips the final
`min` cap but can only return a primary component value, itself within
bounds). -/
theorem claim_C6_theorem (m : Memory) (t : Task) (q : Str) (pc : Option PerfConfig) :
    (0 ≤ calculateRelevanceScore m q pc ∧ calculateRelevanceScore m q pc ≤ 1) ∧
      (0 ≤ calculateTaskRelevanceScore t q pc ∧ calculateTaskRelevanceScore t q pc ≤ 1) := by
  constructor
  · rw [calculateRelevanceScore]
    split_ifs with h
    · exact ⟨primaryScore_nonneg _ _, primaryScore_le_one _ _⟩
    · constructor
      · refine le_min ?_ (by norm_num)
        calc (0 : ℚ) ≤ primaryScore (lower m.title) q := primaryScore_nonneg _ _
          _ ≤ secondaryStage (lower m.content) q (primaryScore (lower m.title) q) :=
            le_secondaryStage _ _ _
          _ ≤ categoryStage m.category q
              (secondaryStage (lower m.content) q (primaryScore (lower m.title) q)) :=
            le_categoryStage _ _ _
      · exact min_le_right _ _
  · rw [calculateTaskRelevanceScore]
    split_ifs with h
    · exact ⟨primaryScore_nonneg _ _, primaryScore_le_one _ _⟩
    · constructor
      · refine le_min ?_ (by norm_num)
        calc (0 : ℚ) ≤ primaryScore (lower t.name) q := primaryScore_nonneg _ _
          _ ≤ secondaryStage (lower t.details) q (primaryScore (lower t.name) q) :=
            le_secondaryStage _ _ _
      · exact min_le_right _ _

/-- Claim C9: the two scorer copies agree whenever the memory's title and
content equal the task's name and details and the memory has no category
(or its lower-cased category does not contain the query): the task scorer
is the memory scorer with the category stage removed, and under these
hypotheses the category stage is the identity. -/
theorem claim_C9_theorem (m : Memory) (t : Task) (q : Str) (pc : Option PerfConfig)
    (ht : m.title = t.name) (hc : m.content = t.details)
    (hcat : m.category = none ∨
      ∃ c, m.category = some c ∧ strIncludes (lower c) q = false) :
    calculateRelevanceScore m q pc = calculateTaskRelevanceScore t q pc := by
  rw [calculateRelevanceScore, calculateTaskRelevanceScore, ht, hc]
  have hstage : ∀ x : ℚ, categoryStage m.category q x = x := by
    intro x
    rw [categoryStage]
    rcases hcat with hnone | ⟨c, hsome, hinc⟩
    · rw [hnone]
      simp [categoryHit]
    · rw [hsome]
      have hhit : categoryHit (some c) q = false := by simp [categoryHit, hinc]
      rw [hhit]
      simp
  rw [hstage]

/-- Witness for C9: a concrete memory/task pair with matching texts and a
category that does not contain the query; both scorers return 0.3. -/
theorem claim_C9_witness :
    calculateRelevanceScore ⟨"Write docs".data, "draft the user guide".data, some "ops".data⟩
        "guide".data (some ⟨false, 1/10⟩) =
      calculateTaskRelevanceScore ⟨"Write docs".data, "draft the user guide".data, "p1".data⟩
        "guide".data (some ⟨false, 1/10⟩) := by
  exact claim_C9_theorem
    ⟨"Write docs".data, "draft the user guide".data, some "ops".data⟩
    ⟨"Write docs".data, "draft the user guide".data, "p1".data⟩
    "guide".data (some ⟨false, 1/10⟩) rfl rfl
    (Or.inr ⟨"ops".data, rfl, by decide⟩)

/-- Claim C4: a search run either raises the cancellation error (returning
no results at all) or returns exactly the list an uncancelled run returns;
a signal already cancelled at the pre-scan check always raises. Never a
truncated list. Holds for both memory search and task search. -/
theorem claim_C4_theorem (signal : ℕ → Bool) (memories : List Memory)
    (projects : List Project) (tasks : List Task) (q : Str) (perf : PerfConfig)
    (threshold : ℚ) (maxResults : ℕ) :
    ((signal 0 = true →
        searchMemories signal memories q perf threshold maxResults = .error cancelMsg) ∧
      (searchMemories signal memories q perf threshold maxResults = .error cancelMsg ∨
        searchMemories signal memories q perf threshold maxResults =
          searchMemories (fun _ => false) memories q perf threshold maxResults)) ∧
    ((signal 0 = true →
        searchTasks signal projects tasks q perf threshold maxResults = .error cancelMsg) ∧
      (searchTasks signal projects tasks q perf threshold maxResults = .error cancelMsg ∨
        searchTasks signal projects tasks q perf threshold maxResults =
          searchTasks (fun _ => false) projects tasks q perf threshold maxResults)) := by
  exact ⟨searchRun_cancellation _ _ _ _ _ _ _ _, searchRun_cancellation _ _ _ _ _ _ _ _⟩

/-- Witness for C4: a signal cancelled at check 0 makes both searches raise
the cancellation error on a concrete corpus. -/
theorem claim_C4_witness :
    searchMemories (fun k => decide (k = 0))
        [⟨"a".data, "b".data, none⟩] "a".data ⟨true, 1/10⟩ (3/10) 10 = .error cancelMsg ∧
      searchTasks (fun k => decide (k = 0)) [] [⟨"a".data, "b".data, "p".data⟩]
        "a".data ⟨true, 1/10⟩ (3/10) 10 = .error cancelMsg := by
  have h := claim_C4_theorem (fun k => decide (k = 0)) [⟨"a".data, "b".data, none⟩] []
    [⟨"a".data, "b".data, "p".data⟩] "a".data ⟨true, 1/10⟩ (3/10) 10
  exact ⟨h.1.1 (by decide), h.2.1 (by decide)⟩

/-- Claim C5: every successful search returns a list that is non-increasing
in score, and within any fixed score the results appear as a sublist of
(hence in the same relative order as) the scored corpus in enumeration
order — the stable-sort tie-breaking contract. Holds for both searches. -/
theorem claim_C5_theorem (signal : ℕ → Bool) (memories : List Memory)
    (projects : List Project) (tasks : List Task) (q : Str) (perf : PerfConfig)
    (threshold : ℚ) (maxResults : ℕ) :
    (∀ out, searchMemories signal memories q perf threshold maxResults = .ok out →
      out.Pairwise (fun a b => b.score ≤ a.score) ∧
      ∀ s : ℚ, List.Sublist (out.filter (fun r => decide (r.score = s)))
        ((memories.map (fun m =>
            MemorySearchResult.mk m (calculateRelevanceScore m (lower q) (some perf)))).filter
          (fun r => decide (r.score = s)))) ∧
    (∀ out, searchTasks signal projects tasks q perf threshold maxResults = .ok out →
      out.Pairwise (fun a b => b.score ≤ a.score) ∧
      ∀ s : ℚ, List.Sublist (out.filter (fun r => decide (r.score = s)))
        ((tasks.map (fun t =>
            TaskSearchResult.mk t (calculateTaskRelevanceScore t (lower q) (some perf))
              (projectNameFor projects t.projectId))).filter
          (fun r => decide (r.score = s)))) := by
  constructor
  · intro out h
    exact searchRun_sorted _ _ _ _ _ _ MemorySearchResult.score _ out h
  · intro out h
    exact searchRun_sorted _ _ _ _ _ _ TaskSearchResult.score _ out h

/-- Witness for C5: a concrete completed search (two records, query
"design") returns the single result with score 0.9, a sorted list. -/
theorem claim_C5_witness :
    ([MemorySearchResult.mk
        ⟨"Design mockups".data, "create wireframes for homepage".data, some "design".data⟩
        (9/10)]).Pairwise (fun a b => b.score ≤ a.score) := by
  have h := (claim_C5_theorem (fun _ => false)
      [⟨"Design mockups".data, "create wireframes for homepage".data, some "design".data⟩,
        ⟨"Setup CI".data, "configure pipeline and tests".data, none⟩] [] []
      "design".data ⟨true, 1/10⟩ (3/10) 10).1
      [⟨⟨"Design mockups".data, "create wireframes for homepage".data, some "design".data⟩,
        9/10⟩]
      (by with_unfolding_all decide)
  exact h.1

/-- The `items` field of `paginateResults`, by definition. -/
theorem paginate_items_def {α : Type} (items : List α) (page : ℤ) (P : ℕ) :
    (paginateResults items page P).items =
      jsSlice items ((page - 1) * (P : ℤ)) ((page - 1) * (P : ℤ) + (P : ℤ)) := rfl

/-- The `currentPage` field of `paginateResults`, by definition. -/
theorem paginate_currentPage_def {α : Type} (items : List α) (page : ℤ) (P : ℕ) :
    (paginateResults items page P).pagination.currentPage =
      max 1 (min page ((ceilDivNat items.length P : ℕ) : ℤ)) := rfl

theorem jsSlice_end_zero {α : Type} (l : List α) (s : ℤ) : jsSlice l s 0 = [] := by
  rw [jsSlice]
  have h0 : ¬((0 : ℤ) < 0) := by omega
  rw [if_neg h0]
  simp

theorem jsSlice_nil_of_start_ge {α : Type} (l : List α) (s e : ℤ) (hs0 : 0 ≤ s)
    (hsl : (l.length : ℤ) ≤ s) : jsSlice l s e = [] := by
  rw [jsSlice]
  have hmin : min s.toNat l.length = l.length := min_eq_right (by omega)
  rw [if_neg (show ¬(s < 0) by omega), hmin, List.drop_length, List.take_nil]

/-- Claim C7 (corrected), counterexample to the original claim: with ten
items and pageSize 2 (so pages 1..5), the out-of-range requested page −1
yields the NON-empty items `[6, 7]`, because `(page-1)*pageSize = -4` is a
negative offset that `Array.slice` counts from the end of the array. -/
theorem claim_C7_counterexample :
    (paginateResults (List.range 10) (-1) 2).items = [6, 7] ∧
      ¬((paginateResults (List.range 10) (-1) 2).items = []) ∧
      (paginateResults (List.range 10) (-1) 2).pagination.totalPages = 5 ∧
      (paginateResults (List.range 10) (-1) 2).pagination.currentPage = 1 := by
  decide

/-- Claim C7 (corrected, amended): `paginateResults` is total (never
throws); a requested page of 0 or beyond the last page yields an empty
items array (a NEGATIVE page instead slices with JavaScript negative-offset
semantics and may return items, which is the only change forced by the
counterexample); the reported `currentPage` is the requested page clamped
into `[1, totalPages]`, reporting 1 when there are no items. -/
theorem claim_C7_theorem (α : Type) (items : List α) (P : ℕ) (page : ℤ)
    (hP : 0 < P) :
    ((page = 0 ∨ ((ceilDivNat items.length P : ℕ) : ℤ) < page) →
      (paginateResults items page P).items = []) ∧
    (paginateResults items page P).pagination.currentPage =
      max 1 (min page ((ceilDivNat items.length P : ℕ) : ℤ)) ∧
    (items.length = 0 → (paginateResults items page P).pagination.currentPage = 1) := by
  refine ⟨?_, paginate_currentPage_def items page P, ?_⟩
  · intro hcase
    rw [paginate_items_def]
    rcases hcase with rfl | hgt
    · have he : ((0 : ℤ) - 1) * (P : ℤ) + (P : ℤ) = 0 := by ring
      rw [he]
      exact jsSlice_end_zero items _
    · have h2 : (items.length : ℤ) ≤ ((ceilDivNat items.length P : ℕ) : ℤ) * (P : ℤ) := by
        exact_mod_cast le_ceilDivNat_mul items.length P hP
      have h3 : ((ceilDivNat items.length P : ℕ) : ℤ) * (P : ℤ) ≤ (page - 1) * (P : ℤ) := by
        apply mul_le_mul_of_nonneg_right (by omega)
        positivity
      apply jsSlice_nil_of_start_ge
      · have hc : (0 : ℤ) ≤ ((ceilDivNat items.length P : ℕ) : ℤ) * (P : ℤ) := by positivity
        linarith
      · linarith
  · intro h0
    rw [paginate_currentPage_def, h0, ceilDivNat_zero]
    omega

/-- Witness for C7 (amended): with three items and pageSize 2 (two pages),
requested page 5 is beyond the last page: empty items, current page clamped
to 2. -/
theorem claim_C7_witness :
    (paginateResults ([10, 11, 12] : List ℕ) 5 2).items = [] ∧
      (paginateResults ([10, 11, 12] : List ℕ) 5 2).pagination.currentPage =
        max 1 (min 5 ((ceilDivNat 3 2 : ℕ) : ℤ)) := by
  have h := claim_C7_theorem ℕ [10, 11, 12] 2 5 (by decide)
  exact ⟨h.1 (Or.inr (by decide)), h.2.1⟩

/-- Claim C8: for pageSize P > 0 the pages 1..ceil(N/P) partition the item
list — their concatenation is the original list (so the item counts sum to
N) — and every such page reports `totalPages = ceil(N/P)`. -/
theorem claim_C8_theorem (α : Type) (items : List α) (P : ℕ) (hP : 0 < P) :
    (((List.range (ceilDivNat items.length P)).map
        (fun k : ℕ => (paginateResults items ((k : ℤ) + 1) P).items)).flatten = items) ∧
    ∀ k : ℕ, k < ceilDivNat items.length P →
      (paginateResults items ((k : ℤ) + 1) P).pagination.totalPages =
        ceilDivNat items.length P := by
  constructor
  · have hmap : (List.range (ceilDivNat items.length P)).map
        (fun k : ℕ => (paginateResults items ((k : ℤ) + 1) P).items) =
        (List.range (ceilDivNat items.length P)).map
          (fun k : ℕ => (items.drop (k * P)).take P) :=
      List.map_congr_left (fun k _ => paginate_items_nat items k P)
    rw [hmap]
    exact pages_flatten P hP items
  · intro k hk
    rfl

/-- Witness for C8: five items, pageSize 2, three pages of sizes 2+2+1. -/
theorem claim_C8_witness :
    ((List.range (ceilDivNat ([0, 1, 2, 3, 4] : List ℕ).length 2)).map
        (fun k : ℕ =>
          (paginateResults ([0, 1, 2, 3, 4] : List ℕ) ((k : ℤ) + 1) 2).items)).flatten
      = [0, 1, 2, 3, 4] :=
  (claim_C8_theorem ℕ [0, 1, 2, 3, 4] 2 (by decide)).1

/-- Claim C10: `validateConfig` returns no errors exactly when every field
present in the partial configuration lies in its accepted range (pageSize
in [5,100], maxResults in [10,1000], threshold in [0.1,1.0],
lowScoreThreshold in [0.01,0.5]); absent fields are never reported. -/
theorem claim_C10_theorem (c : PartialExtensionConfig) :
    validateConfig c = [] ↔
      ((∀ x : ℚ, c.search.bind PartialSearchConfig.pageSize = some x →
          5 ≤ x ∧ x ≤ 100) ∧
        (∀ x : ℚ, c.search.bind PartialSearchConfig.maxResults = some x →
          10 ≤ x ∧ x ≤ 1000) ∧
        (∀ x : ℚ, c.search.bind PartialSearchConfig.threshold = some x →
          1/10 ≤ x ∧ x ≤ 1) ∧
        (∀ x : ℚ, c.performance.bind PartialPerformanceConfig.lowScoreThreshold = some x →
          1/100 ≤ x ∧ x ≤ 1/2)) := by
  rw [validateConfig, List.append_eq_nil, List.append_eq_nil, List.append_eq_nil,
    checkRange_eq_nil, checkRange_eq_nil, checkRange_eq_nil, checkRange_eq_nil]
  tauto

/-- Witness for C10: a fully in-range configuration validates with no
errors. -/
theorem claim_C10_witness :
    validateConfig ⟨some ⟨some 20, some 100, some (1/2)⟩,
      some ⟨some true, some (1/10)⟩⟩ = [] := by
  refine (claim_C10_theorem _).mpr ⟨?_, ?_, ?_, ?_⟩ <;>
    · intro x hx
      injection hx with hx
      subst hx
      norm_num

example : splitWs "a b".data = ["a".data, "b".data] := by decide
example : splitWs "a ".data = ["a".data, "".data] := by decide
example : splitWs "".data = ["".data] := by decide
example : splitWs " a".data = ["".data, "a".data] := by decide
example :
    calculateRelevanceScore
      ⟨"Design mockups".data, "create wireframes for homepage".data, some "design".data⟩
      "design".data (some ⟨true, 1/10⟩) = 9/10 := by with_unfolding_all decide
example :
    calculateRelevanceScore
      ⟨"Setup CI".data, "configure pipeline and tests".data, none⟩
      "pipeline".data (some ⟨true, 1/10⟩) = 0 := by with_unfolding_all decide

end Companion
